import Mathlib

/-!
Verification of the authorization decision cache & batcher
(`src/services/opa/OpaService.ts` and `src/lib/opa/authorize.ts`).

The embedding models the JavaScript data values that flow through the
component (`Record<string, unknown>` resources and claims, JSON
serialization with insertion-ordered object fields), the in-process
decision cache (`Map<string, {decision, expiry}>`), and the service
operations `getCacheKey`, `getCachedDecision`, `cacheDecision`, `query`,
`queryBatch`, `isAllowed`, `isAllAllowed`, `isAnyAllowed` together with
the public entry points `authorize`, `authorizeBatch`, `authorizeAll`,
`authorizeAny`.

Effects are made explicit: `Date.now()` becomes a `Nat` parameter,
`new Date().toISOString()` an uninterpreted `String` parameter, the
policy endpoint an oracle `Nat → FetchOutcome` consulted at the current
value of a network-call counter, and a thrown JavaScript exception an
`Except String` result.  The mutable service state (cache plus the
call counter used to index the oracle) is threaded explicitly.
-/

/-- JSON-like values, modelling the JavaScript `unknown` payloads that
appear in resources, claims and decisions.  Object fields are an ordered
association list, because JavaScript objects remember insertion order of
(non-numeric) string keys and `JSON.stringify` serializes them in that
order. -/
inductive JValue where
  | str (s : String) : JValue
  | num (n : Int) : JValue
  | bool (b : Bool) : JValue
  | null : JValue
  | obj (fields : List (String × JValue)) : JValue
  | arr (elems : List JValue) : JValue
deriving Repr

/-- Escape one character for a JSON string literal (the two cases that
matter for round-tripping: the quote and the backslash). -/
def jsonEscapeChar (c : Char) : String :=
  if c = '"' then "\\\"" else if c = '\\' then "\\\\" else String.singleton c

/-- Escape a string for inclusion in a JSON string literal. -/
def jsonEscape (s : String) : String :=
  String.join (s.toList.map jsonEscapeChar)

/-- A JSON string literal: `"..."` with escaped content. -/
def jsonStr (s : String) : String :=
  "\"" ++ jsonEscape s ++ "\""

mutual

/-- `JSON.stringify` on a JSON value.  Object fields are emitted in the
order in which they are listed, exactly as JavaScript's `JSON.stringify`
emits the insertion order of string-keyed fields. -/
def serializeJValue : JValue → String
  | .str s => jsonStr s
  | .num n => toString n
  | .bool b => if b then "true" else "false"
  | .null => "null"
  | .obj fields => "\x7b" ++ serializeFields fields ++ "\x7d"
  | .arr elems => "[" ++ serializeElems elems ++ "]"

/-- Serialize the comma-separated `"key":value` items of a JSON object. -/
def serializeFields : List (String × JValue) → String
  | [] => ""
  | [(k, v)] => jsonStr k ++ ":" ++ serializeJValue v
  | (k, v) :: rest =>
      jsonStr k ++ ":" ++ serializeJValue v ++ "," ++ serializeFields rest

/-- Serialize the comma-separated elements of a JSON array. -/
def serializeElems : List JValue → String
  | [] => ""
  | [v] => serializeJValue v
  | v :: rest => serializeJValue v ++ "," ++ serializeElems rest

end

/-- A JavaScript `Record<string, unknown>`: an insertion-ordered list of
string-keyed JSON values. -/
abbrev JRecord := List (String × JValue)

/-- The `env` block of an OPA input: `{ now: string, ip: string | null }`. -/
structure OpaEnv where
  now : String
  ip : Option String
deriving Repr, DecidableEq

/-- `OpaInput` from `OpaService.ts`: the envelope sent to the policy
endpoint. -/
structure OpaInput where
  uid : String
  tokenClaims : JRecord
  action : String
  resource : JRecord
  env : OpaEnv
deriving Repr

/-- `OpaDecision` from `OpaService.ts`: `{ allow: boolean; reason?: string }`
(further fields of the engine's answer do not participate in any
behaviour of the component and are elided). -/
structure OpaDecision where
  allow : Bool
  reason : Option String := none
deriving Repr, DecidableEq

/-- A cache entry: `{ decision: OpaDecision; expiry: number }` where
`expiry` is a millisecond timestamp. -/
structure CacheEntry where
  decision : OpaDecision
  expiry : Nat
deriving Repr, DecidableEq

/-- The cache `Map<string, CacheEntry>`, modelled as an association list
with at most one binding per key (maintained by `cacheSet`). -/
abbrev Cache := List (String × CacheEntry)

/-- `Map.get`: the binding of `k`, if any. -/
def cacheLookup : Cache → String → Option CacheEntry
  | [], _ => none
  | (k₀, e) :: rest, k => if k = k₀ then some e else cacheLookup rest k

/-- `Map.delete`: remove the binding of `k`. -/
def cacheDelete : Cache → String → Cache
  | [], _ => []
  | (k₀, e) :: rest, k =>
      if k₀ = k then cacheDelete rest k else (k₀, e) :: cacheDelete rest k

/-- `Map.set`: bind `k` to `e`, replacing any previous binding. -/
def cacheSet (c : Cache) (k : String) (e : CacheEntry) : Cache :=
  cacheDelete c k ++ [(k, e)]

/-- `OpaService.getCacheKey`:
`JSON.stringify({ uid: input.uid, action: input.action, resource: input.resource })`.
The key object lists `uid`, `action`, `resource` in that insertion
order; `tokenClaims` and `env` do not appear. -/
def getCacheKey (input : OpaInput) : String :=
  serializeJValue (.obj
    [("uid", .str input.uid),
     ("action", .str input.action),
     ("resource", .obj input.resource)])

/-- `OpaService.getCachedDecision`: with caching disabled the cache is
not consulted; otherwise a present entry whose `expiry` is strictly in
the future is returned, and a present expired entry is deleted.  Returns
the looked-up decision (if any) together with the possibly-updated
cache. -/
def getCachedDecision (cacheEnabled : Bool) (c : Cache) (k : String)
    (now : Nat) : Option OpaDecision × Cache :=
  if !cacheEnabled then (none, c)
  else
    match cacheLookup c k with
    | some e => if now < e.expiry then (some e.decision, c) else (none, cacheDelete c k)
    | none => (none, c)

/-- `OpaService.cacheDecision`: store `d` under `k` with
`expiry = Date.now() + cacheTtlMs`, unless caching is disabled. -/
def cacheDecision (cacheEnabled : Bool) (cacheTtlMs : Nat) (now : Nat)
    (c : Cache) (k : String) (d : OpaDecision) : Cache :=
  if cacheEnabled then cacheSet c k ⟨d, now + cacheTtlMs⟩ else c

/-- `OpaService.clearCache`: `this.cache.clear()`. -/
def clearCache (_c : Cache) : Cache := []

/-- The outcome of one `fetch` to the policy endpoint, as observed by
`OpaService.query`:
* `netError msg` — `fetch` itself rejects (network failure); `msg` is
  the thrown error's message;
* `httpError status text` — a response with `res.ok` false, whose body
  text is `text`;
* `parseError msg` — a 2xx response whose body `res.json()` fails to
  parse;
* `ok result` — a 2xx response parsed to JSON, `result` being its
  `result` field (`none` when absent). -/
inductive FetchOutcome where
  | netError (msg : String) : FetchOutcome
  | httpError (status : Nat) (text : String) : FetchOutcome
  | parseError (msg : String) : FetchOutcome
  | ok (result : Option OpaDecision) : FetchOutcome
deriving Repr, DecidableEq

/-- The mutable state of an `OpaService` instance as the embedding
threads it: the cache, plus a counter of policy-endpoint calls issued
so far.  The counter both indexes the `Nat → FetchOutcome` oracle (so
each successive network call may have a different outcome) and lets
theorems count the network calls an operation issues. -/
structure ServiceState where
  cache : Cache
  calls : Nat
deriving Repr

/-- The fallback decision `{ allow: false, reason: 'no decision returned' }`
used when a successful response carries no `result` field. -/
def noDecisionFallback : OpaDecision :=
  ⟨false, some "no decision returned"⟩

/-- The message of the error thrown on a non-ok HTTP status:
``OPA call failed ${res.status}: ${text}``. -/
def httpErrorMsg (status : Nat) (text : String) : String :=
  "OPA call failed " ++ toString status ++ ": " ++ text

/-- The post-cache-miss part of `OpaService.query`: turn the fetch
outcome into either a decision (`json.result || fallback`) or a thrown
error. -/
def fetchToResult : FetchOutcome → Except String OpaDecision
  | .netError msg => .error msg
  | .httpError status text => .error (httpErrorMsg status text)
  | .parseError msg => .error msg
  | .ok result => .ok (result.getD noDecisionFallback)

/-- `OpaService.query`: consult the cache; on a hit return the cached
decision with no network call, on a miss issue one call to the policy
endpoint (incrementing the call counter), cache the decision on
success, and propagate a thrown error on failure. -/
def query (cacheEnabled : Bool) (cacheTtlMs : Nat) (oracle : Nat → FetchOutcome)
    (now : Nat) (input : OpaInput) (s : ServiceState) :
    Except String OpaDecision × ServiceState :=
  let key := getCacheKey input
  match getCachedDecision cacheEnabled s.cache key now with
  | (some d, c) => (.ok d, ⟨c, s.calls⟩)
  | (none, c) =>
    match fetchToResult (oracle s.calls) with
    | .ok d =>
        (.ok d, ⟨cacheDecision cacheEnabled cacheTtlMs now c key d, s.calls + 1⟩)
    | .error m => (.error m, ⟨c, s.calls + 1⟩)

/-- `OpaBatchItem` from `OpaService.ts`: one `(action, resource)` pair
of a batch. -/
structure OpaBatchItem where
  action : String
  resource : JRecord
deriving Repr

/-- `OpaBatchResult` from `OpaService.ts`:
`{ index: number; allow: boolean; decision: OpaDecision }`. -/
structure OpaBatchResult where
  index : Nat
  allow : Bool
  decision : OpaDecision
deriving Repr, DecidableEq

/-- The `OpaInput` that `queryBatch` builds for one batch item: the
shared `uid`, `tokenClaims` and `env` together with the item's own
action and resource. -/
def mkBatchInput (uid : String) (tokenClaims : JRecord) (nowIso : String)
    (ip : Option String) (item : OpaBatchItem) : OpaInput :=
  ⟨uid, tokenClaims, item.action, item.resource, ⟨nowIso, ip⟩⟩

/-- The first loop of `OpaService.queryBatch`: for each item, in order,
compute its cache key and try the cache (threading the cache, since an
expired entry observed by the lookup is deleted).  Returns the cache
hits (tagged with their original index), the uncached items (original
index and built input), and the updated cache.  `i` is the index of the
first item. -/
def batchCachePass (cacheEnabled : Bool) (now : Nat) (uid : String)
    (tokenClaims : JRecord) (nowIso : String) (ip : Option String) :
    List OpaBatchItem → Nat → Cache →
    List OpaBatchResult × List (Nat × OpaInput) × Cache
  | [], _, c => ([], [], c)
  | item :: rest, i, c =>
    let input := mkBatchInput uid tokenClaims nowIso ip item
    let (hit, c₁) := getCachedDecision cacheEnabled c (getCacheKey input) now
    let (hits, unc, c₂) :=
      batchCachePass cacheEnabled now uid tokenClaims nowIso ip rest (i + 1) c₁
    match hit with
    | some d => (⟨i, d.allow, d⟩ :: hits, unc, c₂)
    | none => (hits, (i, input) :: unc, c₂)

/-- The result `queryBatch` records for one uncached item whose call
had outcome `out`: on success, `{ index, allow: decision.allow, decision }`;
on a thrown error, the catch branch's
`{ index, allow: false, decision: { allow: false, reason: message } }`. -/
def outcomeToBatchResult (i : Nat) (out : FetchOutcome) : OpaBatchResult :=
  match fetchToResult out with
  | .ok d => ⟨i, d.allow, d⟩
  | .error m => ⟨i, false, ⟨false, some m⟩⟩

/-- The results of the concurrent phase of `queryBatch`.  All the
uncached calls are issued before any of them completes (each `query`
runs synchronously up to its `fetch`, and every uncached key was found
absent or evicted by the first loop, so each inner cache check is a
guaranteed miss); the `k`-th uncached item is therefore the
`base + k`-th network call, and its result depends only on its own
outcome. -/
def runUncached (oracle : Nat → FetchOutcome) :
    List (Nat × OpaInput) → Nat → List OpaBatchResult
  | [], _ => []
  | (i, _) :: rest, base =>
      outcomeToBatchResult i (oracle base) :: runUncached oracle rest (base + 1)

/-- One completed uncached call writing its decision to the cache (the
success path of `query` inside the batch): the call at position `k` of
the uncached list, if it succeeded, stores its decision under its key.
A failed call writes nothing. -/
def writeUncached (cacheEnabled : Bool) (cacheTtlMs : Nat) (now : Nat)
    (oracle : Nat → FetchOutcome) (base : Nat)
    (unc : List (Nat × OpaInput)) (c : Cache) (k : Nat) : Cache :=
  match unc.get? k with
  | none => c
  | some (_, input) =>
    match fetchToResult (oracle (base + k)) with
    | .ok d => cacheDecision cacheEnabled cacheTtlMs now c (getCacheKey input) d
    | .error _ => c

/-- Insert a batch result into a list sorted by ascending `index`. -/
def insertByIndex (r : OpaBatchResult) :
    List OpaBatchResult → List OpaBatchResult
  | [] => [r]
  | x :: xs => if r.index ≤ x.index then r :: x :: xs else x :: insertByIndex r xs

/-- `results.sort((a, b) => a.index - b.index)`: sort ascending by
`index` (within `queryBatch` all indices are distinct, so any ascending
sort computes the JavaScript result). -/
def sortByIndex (l : List OpaBatchResult) : List OpaBatchResult :=
  l.foldr insertByIndex []

/-- `OpaService.queryBatch`.  Phase 1 collects cache hits and uncached
items in input order.  If everything was cached the sorted hit list is
returned with no network call.  Otherwise one concurrent call per
uncached item is issued (`completionOrder` lists the positions of the
uncached calls in the order their responses arrive, which governs only
the order of the cache writes — the result slots are fixed by original
index), the hit and fresh result lists are concatenated and sorted by
original index. -/
def queryBatch (cacheEnabled : Bool) (cacheTtlMs : Nat)
    (oracle : Nat → FetchOutcome) (now : Nat) (nowIso : String)
    (uid : String) (tokenClaims : JRecord) (items : List OpaBatchItem)
    (ip : Option String) (completionOrder : List Nat) (s : ServiceState) :
    List OpaBatchResult × ServiceState :=
  let (hits, unc, c₁) :=
    batchCachePass cacheEnabled now uid tokenClaims nowIso ip items 0 s.cache
  if unc.isEmpty then
    (sortByIndex hits, ⟨c₁, s.calls⟩)
  else
    let fresh := runUncached oracle unc s.calls
    let c₂ := completionOrder.foldl
      (writeUncached cacheEnabled cacheTtlMs now oracle s.calls unc) c₁
    (sortByIndex (hits ++ fresh), ⟨c₂, s.calls + unc.length⟩)

/-- `OpaService.isAllowed`: build the input envelope, run `query`, and
on success return `allow = !!(decision && decision.allow === true)`
(which, for a decision object with a boolean `allow` field, is its
`allow` flag) together with the decision.  A thrown error propagates. -/
def isAllowed (cacheEnabled : Bool) (cacheTtlMs : Nat)
    (oracle : Nat → FetchOutcome) (now : Nat) (nowIso : String)
    (uid : String) (tokenClaims : JRecord) (action : String)
    (resource : JRecord) (ip : Option String) (s : ServiceState) :
    Except String (Bool × OpaDecision) × ServiceState :=
  let input : OpaInput := ⟨uid, tokenClaims, action, resource, ⟨nowIso, ip⟩⟩
  match query cacheEnabled cacheTtlMs oracle now input s with
  | (.ok d, s₁) => (.ok (d.allow, d), s₁)
  | (.error m, s₁) => (.error m, s₁)

/-- `OpaService.isAllAllowed`: run the batch and reduce with
`results.every((r) => r.allow)`. -/
def isAllAllowed (cacheEnabled : Bool) (cacheTtlMs : Nat)
    (oracle : Nat → FetchOutcome) (now : Nat) (nowIso : String)
    (uid : String) (tokenClaims : JRecord) (items : List OpaBatchItem)
    (ip : Option String) (completionOrder : List Nat) (s : ServiceState) :
    (Bool × List OpaBatchResult) × ServiceState :=
  let (results, s₁) := queryBatch cacheEnabled cacheTtlMs oracle now nowIso
    uid tokenClaims items ip completionOrder s
  ((results.all (fun r => r.allow), results), s₁)

/-- `OpaService.isAnyAllowed`: run the batch and reduce with
`results.some((r) => r.allow)`. -/
def isAnyAllowed (cacheEnabled : Bool) (cacheTtlMs : Nat)
    (oracle : Nat → FetchOutcome) (now : Nat) (nowIso : String)
    (uid : String) (tokenClaims : JRecord) (items : List OpaBatchItem)
    (ip : Option String) (completionOrder : List Nat) (s : ServiceState) :
    (Bool × List OpaBatchResult) × ServiceState :=
  let (results, s₁) := queryBatch cacheEnabled cacheTtlMs oracle now nowIso
    uid tokenClaims items ip completionOrder s
  ((results.any (fun r => r.allow), results), s₁)

/-! ### The public entry points (`src/lib/opa/authorize.ts`) -/

/-- The `decision` field of an `AuthResult`: `string | OpaDecision`. -/
inductive DecisionPayload where
  | msg (s : String) : DecisionPayload
  | dec (d : OpaDecision) : DecisionPayload
deriving Repr, DecidableEq

/-- `AuthResult` from `authorize.ts`. -/
structure AuthResult where
  allow : Bool
  decision : DecisionPayload
  uid : Option String
  claims : JRecord
deriving Repr

/-- `BatchAuthRequest` from `authorize.ts`: `context?.ip` is the only
part of the optional context the component reads, so the context is
modelled by that field. -/
structure BatchAuthRequest where
  action : String
  resource : JRecord
  contextIp : Option String := none
deriving Repr

/-- `BatchAuthResult` from `authorize.ts`: an `AuthResult` tagged with
the original index. -/
structure BatchAuthResult where
  allow : Bool
  decision : DecisionPayload
  uid : Option String
  claims : JRecord
  index : Nat
deriving Repr

/-- The identity collaborator: `none` means token verification fails
(the Firebase Admin SDK rejects), `some (uid, claims)` is a verified
subject with the claims map `verifyToken` builds from the decoded
token. -/
abbrev VerifyOracle := String → Option (String × JRecord)

/-- `verifyToken` from `authorize.ts`: any verification failure is
caught and re-thrown as `new Error('Invalid ID token')`, so the caller
observes either the verified `(uid, claims)` or that one message. -/
def verifyToken (verify : VerifyOracle) (idToken : String) :
    Except String (String × JRecord) :=
  match verify idToken with
  | some r => .ok r
  | none => .error "Invalid ID token"

/-- The deny result of the two no-token and catch branches of
`authorize`. -/
def denyResult (reason : String) : AuthResult :=
  ⟨false, .msg reason, none, []⟩

/-- JavaScript truthiness of `idToken: string | null`: `!idToken` is
true for `null` and for the empty string. -/
def tokenFalsy : Option String → Bool
  | none => true
  | some t => t.isEmpty

/-- `authorize` from `authorize.ts`.  With no (or an empty) token it
returns the `no-token` deny without touching the service.  Otherwise it
verifies the token and queries the policy service, and its catch branch
converts any thrown error (verification failure or a policy-endpoint
failure propagated out of `isAllowed`) into a deny whose `decision` is
the error message.  The function is total: no failure escapes as an
exception. -/
def authorize (verify : VerifyOracle) (cacheEnabled : Bool)
    (cacheTtlMs : Nat) (oracle : Nat → FetchOutcome) (now : Nat)
    (nowIso : String) (idToken : Option String) (action : String)
    (resource : JRecord) (ctxIp : Option String) (s : ServiceState) :
    AuthResult × ServiceState :=
  if tokenFalsy idToken then (denyResult "no-token", s)
  else
    match idToken with
    | none => (denyResult "no-token", s)
    | some tok =>
      match verifyToken verify tok with
      | .error m => (denyResult m, s)
      | .ok (uid, claims) =>
        match isAllowed cacheEnabled cacheTtlMs oracle now nowIso
            uid claims action resource ctxIp s with
        | (.ok (allow, d), s₁) => (⟨allow, .dec d, some uid, claims⟩, s₁)
        | (.error m, s₁) => (denyResult m, s₁)

/-- The per-request deny list built by the no-token and catch branches
of `authorizeBatch`: `requests.map((_, index) => ({ ..., index }))`. -/
def denyAllRequests (reason : String) :
    List BatchAuthRequest → Nat → List BatchAuthResult
  | [], _ => []
  | _ :: rest, i =>
      ⟨false, .msg reason, none, [], i⟩ :: denyAllRequests reason rest (i + 1)

/-- `authorizeBatch` from `authorize.ts`: with no (or an empty) token,
one `no-token` deny per request with indices preserved and no service
access; otherwise verify the token once, run `queryBatch` on the
`(action, resource)` pairs with `requests[0]?.context?.ip`, and wrap
each batch result with the shared subject; the catch branch converts a
verification failure into one deny per request. -/
def authorizeBatch (verify : VerifyOracle) (cacheEnabled : Bool)
    (cacheTtlMs : Nat) (oracle : Nat → FetchOutcome) (now : Nat)
    (nowIso : String) (idToken : Option String)
    (requests : List BatchAuthRequest) (completionOrder : List Nat)
    (s : ServiceState) : List BatchAuthResult × ServiceState :=
  if tokenFalsy idToken then (denyAllRequests "no-token" requests 0, s)
  else
    match idToken with
    | none => (denyAllRequests "no-token" requests 0, s)
    | some tok =>
      match verifyToken verify tok with
      | .error m => (denyAllRequests m requests 0, s)
      | .ok (uid, claims) =>
        let items := requests.map (fun r => OpaBatchItem.mk r.action r.resource)
        let ip := (requests.head?).bind (fun r => r.contextIp)
        let (opaResults, s₁) := queryBatch cacheEnabled cacheTtlMs oracle now
          nowIso uid claims items ip completionOrder s
        (opaResults.map
          (fun r => ⟨r.allow, .dec r.decision, some uid, claims, r.index⟩), s₁)

/-- `authorizeAll` from `authorize.ts`: run the batch and reduce with
`results.every((r) => r.allow)`. -/
def authorizeAll (verify : VerifyOracle) (cacheEnabled : Bool)
    (cacheTtlMs : Nat) (oracle : Nat → FetchOutcome) (now : Nat)
    (nowIso : String) (idToken : Option String)
    (requests : List BatchAuthRequest) (completionOrder : List Nat)
    (s : ServiceState) : (Bool × List BatchAuthResult) × ServiceState :=
  let (results, s₁) := authorizeBatch verify cacheEnabled cacheTtlMs oracle
    now nowIso idToken requests completionOrder s
  ((results.all (fun r => r.allow), results), s₁)

/-- `authorizeAny` from `authorize.ts`: run the batch and reduce with
`results.some((r) => r.allow)`. -/
def authorizeAny (verify : VerifyOracle) (cacheEnabled : Bool)
    (cacheTtlMs : Nat) (oracle : Nat → FetchOutcome) (now : Nat)
    (nowIso : String) (idToken : Option String)
    (requests : List BatchAuthRequest) (completionOrder : List Nat)
    (s : ServiceState) : (Bool × List BatchAuthResult) × ServiceState :=
  let (results, s₁) := authorizeBatch verify cacheEnabled cacheTtlMs oracle
    now nowIso idToken requests completionOrder s
  ((results.any (fun r => r.allow), results), s₁)

/-! ### Specification-side functions

These are not translations of source code; they are reformulations the
theorems compare the source functions against: a per-key view of the
cache that ignores expired entries, and a single left-to-right pass
computing what a batch must answer for each item. -/

/-- The decision a key currently holds, seeing through expiry: the
entry's decision if one is present and unexpired, else nothing.
Deleting an expired entry does not change this view of the cache. -/
def validLookup (c : Cache) (k : String) (now : Nat) : Option OpaDecision :=
  match cacheLookup c k with
  | some e => if now < e.expiry then some e.decision else none
  | none => none

/-- Whether a key is a cache hit: a valid entry, with caching enabled. -/
def hitStatus (cacheEnabled : Bool) (c : Cache) (k : String) (now : Nat) :
    Option OpaDecision :=
  if cacheEnabled then validLookup c k now else none

/-- Whether a batch item misses the cache `c₀` (decides how many
network calls a batch must issue). -/
def isMiss (cacheEnabled : Bool) (c₀ : Cache) (now : Nat) (uid : String)
    (tokenClaims : JRecord) (nowIso : String) (ip : Option String)
    (item : OpaBatchItem) : Bool :=
  (hitStatus cacheEnabled c₀
    (getCacheKey (mkBatchInput uid tokenClaims nowIso ip item)) now).isNone

/-- The expected answer of a batch, one item at a time against the
initial cache `c₀`: item `i` answers its valid cached decision if it
has one, and otherwise the outcome of the next network call (call
numbers are handed out to misses from `calls` in input order). -/
def specPass (cacheEnabled : Bool) (oracle : Nat → FetchOutcome) (now : Nat)
    (c₀ : Cache) (uid : String) (tokenClaims : JRecord) (nowIso : String)
    (ip : Option String) : List OpaBatchItem → Nat → Nat → List OpaBatchResult
  | [], _, _ => []
  | item :: rest, i, calls =>
    match hitStatus cacheEnabled c₀
        (getCacheKey (mkBatchInput uid tokenClaims nowIso ip item)) now with
    | some d =>
        ⟨i, d.allow, d⟩ ::
          specPass cacheEnabled oracle now c₀ uid tokenClaims nowIso ip rest
            (i + 1) calls
    | none =>
        outcomeToBatchResult i (oracle calls) ::
          specPass cacheEnabled oracle now c₀ uid tokenClaims nowIso ip rest
            (i + 1) (calls + 1)

/-! ### Association-list and cache lemmas -/

theorem cacheLookup_delete (c : Cache) (k k' : String) :
    cacheLookup (cacheDelete c k) k' =
      if k' = k then none else cacheLookup c k' := by
  induction c with
  | nil => simp [cacheDelete, cacheLookup]
  | cons p rest ih =>
    obtain ⟨k₀, e⟩ := p
    by_cases h₀ : k₀ = k
    · subst h₀
      by_cases h' : k' = k₀
      · subst h'
        simp [cacheDelete, cacheLookup, ih]
      · simp [cacheDelete, cacheLookup, h', ih]
    · by_cases h' : k' = k₀
      · subst h'
        simp [cacheDelete, cacheLookup, h₀, Ne.symm h₀]
      · simp [cacheDelete, cacheLookup, h₀, h', ih]

theorem cacheLookup_set (c : Cache) (k k' : String) (e : CacheEntry) :
    cacheLookup (cacheSet c k e) k' =
      if k' = k then some e else cacheLookup c k' := by
  unfold cacheSet
  induction c with
  | nil => by_cases h : k' = k <;> simp [cacheDelete, cacheLookup, h]
  | cons p rest ih =>
    obtain ⟨k₀, e₀⟩ := p
    by_cases h₀ : k₀ = k
    · subst h₀
      by_cases h' : k' = k₀
      · subst h'
        simpa [cacheDelete, cacheLookup] using ih
      · simpa [cacheDelete, cacheLookup, h'] using ih
    · by_cases h' : k' = k₀
      · subst h'
        simp [cacheDelete, cacheLookup, h₀, Ne.symm h₀]
      · simp [cacheDelete, cacheLookup, h₀, h'] at ih ⊢
        exact ih

theorem cacheLookup_getCachedDecision_snd (cacheEnabled : Bool) (c : Cache)
    (k : String) (now : Nat) (k' : String) (e : CacheEntry)
    (h : cacheLookup (getCachedDecision cacheEnabled c k now).2 k' = some e) :
    cacheLookup c k' = some e := by
  unfold getCachedDecision at h
  cases cacheEnabled with
  | false => simpa using h
  | true =>
    simp only [Bool.not_true, Bool.false_eq_true, if_false, if_true] at h
    revert h
    match hc : cacheLookup c k with
    | none => simp
    | some e₀ =>
      by_cases he : now < e₀.expiry
      · simp [he]
      · simp only [he, if_false]
        intro h
        rw [cacheLookup_delete] at h
        by_cases hk : k' = k
        · simp [hk] at h
        · simpa [hk] using h

theorem getCachedDecision_fst (cacheEnabled : Bool) (c : Cache) (k : String)
    (now : Nat) :
    (getCachedDecision cacheEnabled c k now).1 = hitStatus cacheEnabled c k now := by
  unfold getCachedDecision hitStatus validLookup
  cases cacheEnabled with
  | false => simp
  | true =>
    simp only [Bool.not_true, Bool.false_eq_true, if_false, if_true]
    match h : cacheLookup c k with
    | some e => by_cases he : now < e.expiry <;> simp [he]
    | none => simp

theorem validLookup_getCachedDecision_snd (cacheEnabled : Bool) (c : Cache)
    (k : String) (now : Nat) (k' : String) :
    validLookup (getCachedDecision cacheEnabled c k now).2 k' now =
      validLookup c k' now := by
  unfold getCachedDecision
  cases cacheEnabled with
  | false => simp
  | true =>
    simp only [Bool.not_true, Bool.false_eq_true, if_false, if_true]
    match h : cacheLookup c k with
    | none => simp
    | some e =>
      by_cases he : now < e.expiry
      · simp [he]
      · simp only [he, if_false]
        unfold validLookup
        rw [cacheLookup_delete]
        by_cases hk : k' = k
        · subst hk
          rw [h]
          simp [he]
        · simp [hk]

/-! ### Sorting lemmas -/

theorem insertByIndex_perm (r : OpaBatchResult) (l : List OpaBatchResult) :
    (insertByIndex r l).Perm (r :: l) := by
  induction l with
  | nil => exact List.Perm.refl _
  | cons x xs ih =>
    unfold insertByIndex
    by_cases h : r.index ≤ x.index
    · simp only [h, if_true]
      exact List.Perm.refl _
    · simp only [h, if_false]
      exact (ih.cons x).trans (List.Perm.swap r x xs)

theorem sortByIndex_perm (l : List OpaBatchResult) :
    (sortByIndex l).Perm l := by
  induction l with
  | nil => exact List.Perm.refl _
  | cons x xs ih =>
    exact (insertByIndex_perm x (sortByIndex xs)).trans (ih.cons x)

theorem insertByIndex_sorted (r : OpaBatchResult) (l : List OpaBatchResult)
    (hl : l.Pairwise (fun a b => a.index ≤ b.index)) :
    (insertByIndex r l).Pairwise (fun a b => a.index ≤ b.index) := by
  induction l with
  | nil => simp [insertByIndex]
  | cons x xs ih =>
    rcases List.pairwise_cons.mp hl with ⟨hx, hxs⟩
    unfold insertByIndex
    by_cases h : r.index ≤ x.index
    · simp only [h, if_true]
      refine List.pairwise_cons.mpr ⟨?_, hl⟩
      intro b hb
      rcases List.mem_cons.mp hb with hb | hb
      · exact hb ▸ h
      · exact le_trans h (hx b hb)
    · simp only [h, if_false]
      refine List.pairwise_cons.mpr ⟨?_, ih hxs⟩
      intro b hb
      rcases List.mem_cons.mp ((insertByIndex_perm r xs).mem_iff.mp hb) with hb | hb
      · exact hb ▸ le_of_not_le h
      · exact hx b hb

theorem sortByIndex_sorted (l : List OpaBatchResult) :
    (sortByIndex l).Pairwise (fun a b => a.index ≤ b.index) := by
  induction l with
  | nil => simp [sortByIndex]
  | cons x xs ih => exact insertByIndex_sorted x (sortByIndex xs) ih

/-! ### specPass lemmas -/

theorem outcomeToBatchResult_index (i : Nat) (out : FetchOutcome) :
    (outcomeToBatchResult i out).index = i := by
  unfold outcomeToBatchResult
  cases h : fetchToResult out <;> simp [h]

theorem specPass_index_map (ce : Bool) (oracle : Nat → FetchOutcome)
    (now : Nat) (c₀ : Cache) (uid : String) (tc : JRecord) (nowIso : String)
    (ip : Option String) :
    ∀ (items : List OpaBatchItem) (i calls : Nat),
      (specPass ce oracle now c₀ uid tc nowIso ip items i calls).map
          (fun r => r.index) = List.range' i items.length := by
  intro items
  induction items with
  | nil => intro i calls; simp [specPass]
  | cons item rest ih =>
    intro i calls
    unfold specPass
    cases hitStatus ce c₀ (getCacheKey (mkBatchInput uid tc nowIso ip item)) now with
    | some d =>
      simp only [List.map_cons, ih, List.length_cons]
      rw [List.range'_succ]
    | none =>
      simp only [List.map_cons, ih, List.length_cons, outcomeToBatchResult_index]
      rw [List.range'_succ]

theorem specPass_length (ce : Bool) (oracle : Nat → FetchOutcome)
    (now : Nat) (c₀ : Cache) (uid : String) (tc : JRecord) (nowIso : String)
    (ip : Option String) (items : List OpaBatchItem) (i calls : Nat) :
    (specPass ce oracle now c₀ uid tc nowIso ip items i calls).length =
      items.length := by
  have h := specPass_index_map ce oracle now c₀ uid tc nowIso ip items i calls
  have := congrArg List.length h
  simpa using this

theorem specPass_sorted_lt (ce : Bool) (oracle : Nat → FetchOutcome)
    (now : Nat) (c₀ : Cache) (uid : String) (tc : JRecord) (nowIso : String)
    (ip : Option String) (items : List OpaBatchItem) (i calls : Nat) :
    (specPass ce oracle now c₀ uid tc nowIso ip items i calls).Pairwise
      (fun a b => a.index < b.index) := by
  have h := specPass_index_map ce oracle now c₀ uid tc nowIso ip items i calls
  have hp : ((specPass ce oracle now c₀ uid tc nowIso ip items i calls).map
      (fun r => r.index)).Pairwise (· < ·) := by
    rw [h]; exact List.pairwise_lt_range' i items.length
  exact List.pairwise_map.mp hp

theorem hitStatus_congr (ce : Bool) (c₁ c₂ : Cache) (now : Nat)
    (h : ∀ k, validLookup c₁ k now = validLookup c₂ k now) (k : String) :
    hitStatus ce c₁ k now = hitStatus ce c₂ k now := by
  unfold hitStatus
  cases ce <;> simp [h k]

theorem specPass_congr (ce : Bool) (oracle : Nat → FetchOutcome) (now : Nat)
    (c₁ c₂ : Cache) (uid : String) (tc : JRecord) (nowIso : String)
    (ip : Option String)
    (h : ∀ k, validLookup c₁ k now = validLookup c₂ k now) :
    ∀ (items : List OpaBatchItem) (i calls : Nat),
      specPass ce oracle now c₁ uid tc nowIso ip items i calls =
        specPass ce oracle now c₂ uid tc nowIso ip items i calls := by
  intro items
  induction items with
  | nil => intro i calls; rfl
  | cons item rest ih =>
    intro i calls
    unfold specPass
    rw [hitStatus_congr ce c₁ c₂ now h]
    cases hitStatus ce c₂ (getCacheKey (mkBatchInput uid tc nowIso ip item)) now with
    | some d => simp only [ih]
    | none => simp only [ih]

theorem isMiss_congr (ce : Bool) (c₁ c₂ : Cache) (now : Nat) (uid : String)
    (tc : JRecord) (nowIso : String) (ip : Option String)
    (h : ∀ k, validLookup c₁ k now = validLookup c₂ k now)
    (item : OpaBatchItem) :
    isMiss ce c₁ now uid tc nowIso ip item =
      isMiss ce c₂ now uid tc nowIso ip item := by
  unfold isMiss
  rw [hitStatus_congr ce c₁ c₂ now h]

/-- The behaviour of the first loop of `queryBatch`, related to the
one-pass specification `specPass` over the loop's *initial* cache:
the collected hits together with the results of the uncached calls are
a permutation of the specified answers; the loop only evicts expired
entries (so the per-key valid view of the cache, and hence hit/miss
status, is unchanged, and every surviving entry was already present);
and the number of uncached items is the number of misses against the
initial cache. -/
theorem batchCachePass_spec (ce : Bool) (oracle : Nat → FetchOutcome)
    (now : Nat) (uid : String) (tc : JRecord) (nowIso : String)
    (ip : Option String) :
    ∀ (items : List OpaBatchItem) (i : Nat) (c : Cache) (base : Nat)
      (hits : List OpaBatchResult) (unc : List (Nat × OpaInput)) (c' : Cache),
      batchCachePass ce now uid tc nowIso ip items i c = (hits, unc, c') →
      (hits ++ runUncached oracle unc base).Perm
          (specPass ce oracle now c uid tc nowIso ip items i base) ∧
        (∀ k, validLookup c' k now = validLookup c k now) ∧
        unc.length = items.countP (isMiss ce c now uid tc nowIso ip) ∧
        (∀ k e, cacheLookup c' k = some e → cacheLookup c k = some e) := by
  intro items
  induction items with
  | nil =>
    intro i c base hits unc c' h
    unfold batchCachePass at h
    injection h with h1 h2
    injection h2 with h2 h3
    subst h1; subst h2; subst h3
    exact ⟨by simp [runUncached, specPass], fun k => rfl, rfl, fun k e he => he⟩
  | cons item rest ih =>
    intro i c base hits unc c' h
    unfold batchCachePass at h
    simp only [] at h
    rcases hg : getCachedDecision ce c
        (getCacheKey (mkBatchInput uid tc nowIso ip item)) now with ⟨hit, c₁⟩
    rw [hg] at h
    have hfst := getCachedDecision_fst ce c
      (getCacheKey (mkBatchInput uid tc nowIso ip item)) now
    rw [hg] at hfst
    have hvl : ∀ k', validLookup c₁ k' now = validLookup c k' now := by
      intro k'
      have := validLookup_getCachedDecision_snd ce c
        (getCacheKey (mkBatchInput uid tc nowIso ip item)) now k'
      rwa [hg] at this
    have hlk : ∀ k' e, cacheLookup c₁ k' = some e → cacheLookup c k' = some e := by
      intro k' e he
      exact cacheLookup_getCachedDecision_snd ce c
        (getCacheKey (mkBatchInput uid tc nowIso ip item)) now k' e (by rwa [hg])
    rcases hb : batchCachePass ce now uid tc nowIso ip rest (i + 1) c₁
      with ⟨hits', unc', c₂⟩
    rw [hb] at h
    cases hit with
    | some d =>
      simp only [] at h
      injection h with h1 h2
      injection h2 with h2 h3
      subst h1; subst h2; subst h3
      obtain ⟨ihp, ihv, ihc, ihl⟩ := ih (i + 1) c₁ base hits' unc' c₂ hb
      refine ⟨?_, ?_, ?_, ?_⟩
      · unfold specPass
        rw [← hfst]
        simp only [List.cons_append]
        exact List.Perm.cons _
          (ihp.trans (by
            rw [specPass_congr ce oracle now c₁ c uid tc nowIso ip hvl]))
      · intro k
        rw [ihv k, hvl k]
      · rw [List.countP_cons]
        have hmiss : isMiss ce c now uid tc nowIso ip item = false := by
          unfold isMiss
          rw [← hfst]
          rfl
        rw [hmiss]
        simp only [Bool.false_eq_true, if_false, Nat.add_zero]
        rw [ihc]
        exact List.countP_congr (fun x hx => by
          rw [isMiss_congr ce c₁ c now uid tc nowIso ip hvl x])
      · intro k e he
        exact hlk k e (ihl k e he)
    | none =>
      simp only [] at h
      injection h with h1 h2
      injection h2 with h2 h3
      subst h1; subst h2; subst h3
      obtain ⟨ihp, ihv, ihc, ihl⟩ := ih (i + 1) c₁ (base + 1) hits' unc' c₂ hb
      refine ⟨?_, ?_, ?_, ?_⟩
      · unfold specPass
        rw [← hfst]
        simp only [runUncached]
        refine List.perm_middle.trans ?_
        exact List.Perm.cons _
          (ihp.trans (by
            rw [specPass_congr ce oracle now c₁ c uid tc nowIso ip hvl]))
      · intro k
        rw [ihv k, hvl k]
      · rw [List.countP_cons]
        have hmiss : isMiss ce c now uid tc nowIso ip item = true := by
          unfold isMiss
          rw [← hfst]
          rfl
        rw [hmiss]
        simp only [eq_self_iff_true, if_true]
        rw [List.length_cons, ihc]
        have : (rest.countP (isMiss ce c₁ now uid tc nowIso ip)) =
            (rest.countP (isMiss ce c now uid tc nowIso ip)) :=
          List.countP_congr (fun x hx => by
            rw [isMiss_congr ce c₁ c now uid tc nowIso ip hvl x])
        omega
      · intro k e he
        exact hlk k e (ihl k e he)

/-- Sorting by index is determined by any strictly-sorted permutation:
if `l` is a permutation of a list `m` whose indices strictly increase,
then sorting `l` by index yields exactly `m`. -/
theorem sortByIndex_eq_of_perm (l m : List OpaBatchResult)
    (hp : l.Perm m) (hm : m.Pairwise (fun a b => a.index < b.index)) :
    sortByIndex l = m := by
  haveI : IsAntisymm OpaBatchResult (fun a b => a.index < b.index) :=
    ⟨fun a b h₁ h₂ => absurd h₂ (by omega)⟩
  have hperm : (sortByIndex l).Perm m := (sortByIndex_perm l).trans hp
  have hnodupm : (m.map (fun r => r.index)).Nodup :=
    (List.pairwise_map.mpr hm).imp (fun h => Nat.ne_of_lt h)
  have hnodup : ((sortByIndex l).map (fun r => r.index)).Nodup :=
    (hperm.map (fun r => r.index)).symm.nodup hnodupm
  have hne : (sortByIndex l).Pairwise (fun a b => a.index ≠ b.index) :=
    List.pairwise_map.mp hnodup
  have hsorted : (sortByIndex l).Pairwise (fun a b => a.index < b.index) :=
    ((sortByIndex_sorted l).and hne).imp
      (fun h => lt_of_le_of_ne h.1 h.2)
  exact List.eq_of_perm_of_sorted hperm hsorted hm

/-- `queryBatch` computes exactly the one-pass specification `specPass`
against its initial cache, and issues one policy-endpoint call per
cache miss — regardless of the order in which the concurrent calls
complete. -/
theorem queryBatch_spec (ce : Bool) (ttl : Nat) (oracle : Nat → FetchOutcome)
    (now : Nat) (nowIso : String) (uid : String) (tc : JRecord)
    (items : List OpaBatchItem) (ip : Option String) (order : List Nat)
    (s : ServiceState) :
    (queryBatch ce ttl oracle now nowIso uid tc items ip order s).1 =
        specPass ce oracle now s.cache uid tc nowIso ip items 0 s.calls ∧
      (queryBatch ce ttl oracle now nowIso uid tc items ip order s).2.calls =
        s.calls + items.countP (isMiss ce s.cache now uid tc nowIso ip) := by
  rcases hb : batchCachePass ce now uid tc nowIso ip items 0 s.cache
    with ⟨hits, unc, c₁⟩
  obtain ⟨hperm, hvl, hcount, hlk⟩ :=
    batchCachePass_spec ce oracle now uid tc nowIso ip items 0 s.cache s.calls
      hits unc c₁ hb
  have hsorted := specPass_sorted_lt ce oracle now s.cache uid tc nowIso ip
    items 0 s.calls
  unfold queryBatch
  rw [hb]
  by_cases hu : unc.isEmpty
  · have hunc : unc = [] := List.isEmpty_iff.mp hu
    subst hunc
    simp only [List.isEmpty_nil, if_true]
    constructor
    · exact sortByIndex_eq_of_perm _ _ (by simpa [runUncached] using hperm) hsorted
    · simpa using hcount.symm
  · have hu' : unc.isEmpty = false := by
      cases h : unc.isEmpty
      · rfl
      · exact absurd h hu
    simp only [hu', Bool.false_eq_true, if_false]
    constructor
    · exact sortByIndex_eq_of_perm _ _ hperm hsorted
    · simp only [hcount]

/-- The `k`-th answer of the one-pass specification: the item's cached
decision on a hit, and otherwise the outcome of the call numbered by
the misses before it. -/
theorem specPass_get? (ce : Bool) (oracle : Nat → FetchOutcome) (now : Nat)
    (c₀ : Cache) (uid : String) (tc : JRecord) (nowIso : String)
    (ip : Option String) :
    ∀ (items : List OpaBatchItem) (i calls k : Nat) (item : OpaBatchItem),
      items.get? k = some item →
      (specPass ce oracle now c₀ uid tc nowIso ip items i calls).get? k =
        some (match hitStatus ce c₀
            (getCacheKey (mkBatchInput uid tc nowIso ip item)) now with
          | some d => ⟨i + k, d.allow, d⟩
          | none => outcomeToBatchResult (i + k)
              (oracle (calls +
                (items.take k).countP (isMiss ce c₀ now uid tc nowIso ip)))) := by
  intro items
  induction items with
  | nil => intro i calls k item h; simp at h
  | cons item₀ rest ih =>
    intro i calls k item h
    cases k with
    | zero =>
      simp only [List.get?] at h
      injection h with h
      subst h
      unfold specPass
      cases hh : hitStatus ce c₀
          (getCacheKey (mkBatchInput uid tc nowIso ip item₀)) now with
      | some d => simp [hh]
      | none => simp [hh]
    | succ k =>
      simp only [List.get?] at h
      unfold specPass
      cases hh : hitStatus ce c₀
          (getCacheKey (mkBatchInput uid tc nowIso ip item₀)) now with
      | some d =>
        have hm : isMiss ce c₀ now uid tc nowIso ip item₀ = false := by
          unfold isMiss; rw [hh]; rfl
        simp only [List.get?]
        rw [ih (i + 1) calls k item h]
        have h1 : i + 1 + k = i + (k + 1) := by omega
        have h2 : ((item₀ :: rest).take (k + 1)).countP
              (isMiss ce c₀ now uid tc nowIso ip) =
            (rest.take k).countP (isMiss ce c₀ now uid tc nowIso ip) := by
          simp [List.take_succ_cons, List.countP_cons, hm]
        rw [h2, h1]
      | none =>
        have hm : isMiss ce c₀ now uid tc nowIso ip item₀ = true := by
          unfold isMiss; rw [hh]; rfl
        simp only [List.get?]
        rw [ih (i + 1) (calls + 1) k item h]
        have h1 : i + 1 + k = i + (k + 1) := by omega
        have h2 : ((item₀ :: rest).take (k + 1)).countP
              (isMiss ce c₀ now uid tc nowIso ip) =
            (rest.take k).countP (isMiss ce c₀ now uid tc nowIso ip) + 1 := by
          simp [List.take_succ_cons, List.countP_cons, hm]
        have h3 : calls +
              ((rest.take k).countP (isMiss ce c₀ now uid tc nowIso ip) + 1) =
            calls + 1 + (rest.take k).countP (isMiss ce c₀ now uid tc nowIso ip) := by
          omega
        rw [h2, h3, h1]

/-! ### Lemmas about `query` -/

theorem getCachedDecision_of_hit (ce : Bool) (c : Cache) (k : String)
    (now : Nat) (d : OpaDecision) (h : hitStatus ce c k now = some d) :
    getCachedDecision ce c k now = (some d, c) := by
  unfold hitStatus validLookup at h
  unfold getCachedDecision
  cases ce with
  | false => simp at h
  | true =>
    simp only [if_true] at h
    simp only [Bool.not_true, Bool.false_eq_true, if_false, if_true]
    revert h
    match hc : cacheLookup c k with
    | none => simp
    | some e =>
      by_cases he : now < e.expiry
      · simp only [he, if_true]
        intro h
        injection h with h
        rw [h]
      · simp [he]

/-- On a cache hit, `query` returns the cached decision, leaves the
cache untouched, and issues no network call. -/
theorem query_hit (ce : Bool) (ttl : Nat) (oracle : Nat → FetchOutcome)
    (now : Nat) (input : OpaInput) (s : ServiceState) (d : OpaDecision)
    (h : hitStatus ce s.cache (getCacheKey input) now = some d) :
    query ce ttl oracle now input s = (.ok d, ⟨s.cache, s.calls⟩) := by
  unfold query
  simp only []
  rw [getCachedDecision_of_hit ce s.cache (getCacheKey input) now d h]

/-- On a cache miss with a successful response, `query` returns the
parsed decision (`json.result || fallback`), stores it, and has issued
exactly one network call. -/
theorem query_miss_ok (ce : Bool) (ttl : Nat) (oracle : Nat → FetchOutcome)
    (now : Nat) (input : OpaInput) (s : ServiceState) (r : Option OpaDecision)
    (hm : hitStatus ce s.cache (getCacheKey input) now = none)
    (ho : oracle s.calls = .ok r) :
    query ce ttl oracle now input s =
      (.ok (r.getD noDecisionFallback),
        ⟨cacheDecision ce ttl now
            (getCachedDecision ce s.cache (getCacheKey input) now).2
            (getCacheKey input) (r.getD noDecisionFallback),
          s.calls + 1⟩) := by
  unfold query
  simp only []
  rcases hg : getCachedDecision ce s.cache (getCacheKey input) now with ⟨hit, c₁⟩
  have hfst := getCachedDecision_fst ce s.cache (getCacheKey input) now
  rw [hg] at hfst
  simp only [] at hfst
  rw [hm] at hfst
  subst hfst
  simp [ho, fetchToResult]

/-- On a cache miss with a failing call, `query` propagates the thrown
error, stores nothing, and has issued exactly one network call. -/
theorem query_miss_err (ce : Bool) (ttl : Nat) (oracle : Nat → FetchOutcome)
    (now : Nat) (input : OpaInput) (s : ServiceState) (m : String)
    (hm : hitStatus ce s.cache (getCacheKey input) now = none)
    (he : fetchToResult (oracle s.calls) = .error m) :
    query ce ttl oracle now input s =
      (.error m,
        ⟨(getCachedDecision ce s.cache (getCacheKey input) now).2, s.calls + 1⟩) := by
  unfold query
  simp only []
  rcases hg : getCachedDecision ce s.cache (getCacheKey input) now with ⟨hit, c₁⟩
  have hfst := getCachedDecision_fst ce s.cache (getCacheKey input) now
  rw [hg] at hfst
  simp only [] at hfst
  rw [hm] at hfst
  subst hfst
  simp [he]

/-- After a miss with caching enabled, the key has no binding at all
(it was either absent, or expired and therefore evicted by the lookup). -/
theorem cacheLookup_after_miss (c : Cache) (k : String) (now : Nat)
    (h : hitStatus true c k now = none) :
    cacheLookup (getCachedDecision true c k now).2 k = none := by
  unfold hitStatus validLookup at h
  unfold getCachedDecision
  simp only [if_true] at h
  simp only [Bool.not_true, Bool.false_eq_true, if_false, if_true]
  revert h
  match hc : cacheLookup c k with
  | none => intro _; simpa using hc
  | some e =>
    by_cases he : now < e.expiry
    · simp [he]
    · simp only [he, if_false]
      intro _
      rw [cacheLookup_delete]
      simp

theorem fetchToResult_ok_inv (out : FetchOutcome) (d : OpaDecision)
    (h : fetchToResult out = .ok d) :
    ∃ r, out = .ok r ∧ d = r.getD noDecisionFallback := by
  cases out with
  | netError m => simp [fetchToResult] at h
  | httpError st t => simp [fetchToResult] at h
  | parseError m => simp [fetchToResult] at h
  | ok r =>
    refine ⟨r, rfl, ?_⟩
    injection h with h
    exact h.symm

/-- Every entry present after the cache-write phase of a batch was
either already present or was written by a successful call, whatever
the completion order. -/
theorem writeUncached_lookup (ce : Bool) (ttl : Nat) (now : Nat)
    (oracle : Nat → FetchOutcome) (base : Nat) (unc : List (Nat × OpaInput)) :
    ∀ (order : List Nat) (c : Cache) (k : String) (e : CacheEntry),
      cacheLookup (order.foldl (writeUncached ce ttl now oracle base unc) c) k =
          some e →
      cacheLookup c k = some e ∨
        ∃ n r, oracle n = .ok r ∧
          e = ⟨r.getD noDecisionFallback, now + ttl⟩ := by
  intro order
  induction order with
  | nil => intro c k e h; exact Or.inl h
  | cons j rest ih =>
    intro c k e h
    rcases ih (writeUncached ce ttl now oracle base unc c j) k e h with h' | h'
    · unfold writeUncached at h'
      revert h'
      match unc.get? j with
      | none => exact fun h' => Or.inl h'
      | some (_, input) =>
        match hf : fetchToResult (oracle (base + j)) with
        | .error m => exact fun h' => Or.inl h'
        | .ok d =>
          intro h'
          unfold cacheDecision at h'
          cases ce with
          | false => exact Or.inl h'
          | true =>
            simp only [if_true] at h'
            rw [cacheLookup_set] at h'
            by_cases hk : k = getCacheKey input
            · rw [if_pos hk] at h'
              injection h' with h'
              obtain ⟨r, hr, hd⟩ := fetchToResult_ok_inv _ _ hf
              exact Or.inr ⟨base + j, r, hr, by rw [← h', hd]⟩
            · rw [if_neg hk] at h'
              exact Or.inl h'
    · exact Or.inr h'

/-- Every entry present in the cache after `queryBatch` was either
already present beforehand or holds a decision parsed from a
successful policy response; failure-converted denies are never
stored. -/
theorem queryBatch_cache_lookup (ce : Bool) (ttl : Nat)
    (oracle : Nat → FetchOutcome) (now : Nat) (nowIso : String) (uid : String)
    (tc : JRecord) (items : List OpaBatchItem) (ip : Option String)
    (order : List Nat) (s : ServiceState) (k : String) (e : CacheEntry)
    (h : cacheLookup
        (queryBatch ce ttl oracle now nowIso uid tc items ip order s).2.cache
        k = some e) :
    cacheLookup s.cache k = some e ∨
      ∃ n r, oracle n = .ok r ∧
        e = ⟨r.getD noDecisionFallback, now + ttl⟩ := by
  revert h
  unfold queryBatch
  rcases hb : batchCachePass ce now uid tc nowIso ip items 0 s.cache
    with ⟨hits, unc, c₁⟩
  obtain ⟨_, _, _, hlk⟩ :=
    batchCachePass_spec ce oracle now uid tc nowIso ip items 0 s.cache s.calls
      hits unc c₁ hb
  by_cases hu : unc.isEmpty
  · simp only [hu, if_true]
    intro h
    exact Or.inl (hlk k e h)
  · have hu' : unc.isEmpty = false := by
      cases h : unc.isEmpty
      · rfl
      · exact absurd h hu
    simp only [hu', Bool.false_eq_true, if_false]
    intro h
    rcases writeUncached_lookup ce ttl now oracle s.calls unc order c₁ k e h
      with h' | h'
    · exact Or.inl (hlk k e h')
    · exact Or.inr h'

/-! ### Lemmas about `denyAllRequests` -/

theorem denyAllRequests_length (m : String) :
    ∀ (reqs : List BatchAuthRequest) (i : Nat),
      (denyAllRequests m reqs i).length = reqs.length := by
  intro reqs
  induction reqs with
  | nil => intro i; rfl
  | cons r rest ih => intro i; simp [denyAllRequests, ih]

theorem denyAllRequests_get? (m : String) :
    ∀ (reqs : List BatchAuthRequest) (i k : Nat), k < reqs.length →
      (denyAllRequests m reqs i).get? k =
        some ⟨false, .msg m, none, [], i + k⟩ := by
  intro reqs
  induction reqs with
  | nil => intro i k hk; simp at hk
  | cons r rest ih =>
    intro i k hk
    cases k with
    | zero => simp [denyAllRequests, List.get?]
    | succ k =>
      have : k < rest.length := by simpa using Nat.lt_of_succ_lt_succ hk
      simp only [denyAllRequests, List.get?]
      rw [ih (i + 1) k this]
      have : i + 1 + k = i + (k + 1) := by omega
      rw [this]

theorem denyAllRequests_mem (m : String) :
    ∀ (reqs : List BatchAuthRequest) (i : Nat) (r : BatchAuthResult),
      r ∈ denyAllRequests m reqs i → r.allow = false ∧ r.decision = .msg m := by
  intro reqs
  induction reqs with
  | nil => intro i r hr; simp [denyAllRequests] at hr
  | cons q rest ih =>
    intro i r hr
    rcases List.mem_cons.mp hr with hr | hr
    · subst hr; exact ⟨rfl, rfl⟩
    · exact ih (i + 1) r hr

/-- A cache miss always costs exactly one network call, whatever the
outcome of that call. -/
theorem query_miss_calls (ce : Bool) (ttl : Nat) (oracle : Nat → FetchOutcome)
    (now : Nat) (input : OpaInput) (s : ServiceState)
    (hm : hitStatus ce s.cache (getCacheKey input) now = none) :
    (query ce ttl oracle now input s).2.calls = s.calls + 1 := by
  unfold query
  simp only []
  rcases hg : getCachedDecision ce s.cache (getCacheKey input) now with ⟨hit, c₁⟩
  have hfst := getCachedDecision_fst ce s.cache (getCacheKey input) now
  rw [hg] at hfst
  simp only [] at hfst
  rw [hm] at hfst
  subst hfst
  cases hf : fetchToResult (oracle s.calls) <;> simp [hf]

theorem hitStatus_of_lookup_none (ce : Bool) (c : Cache) (k : String)
    (now : Nat) (h : cacheLookup c k = none) :
    hitStatus ce c k now = none := by
  unfold hitStatus validLookup
  cases ce <;> simp [h]

/-! ### Claim theorems -/

/-- C1: the claim says cache-key derivation is invariant under
reordering of the resource object's fields.  It is not: `getCacheKey`
serializes the resource with `JSON.stringify`, which emits fields in
insertion order, so the two resources `{type:"post", id:"1"}` and
`{id:"1", type:"post"}` — equal as field sets — produce different
keys for the same subject and action. -/
theorem getCacheKey_sensitive_to_resource_field_order :
    getCacheKey ⟨"u1", [], "read_post",
        [("type", .str "post"), ("id", .str "1")], ⟨"2024-01-01T00:00:00Z", none⟩⟩ ≠
      getCacheKey ⟨"u1", [], "read_post",
        [("id", .str "1"), ("type", .str "post")], ⟨"2024-01-01T00:00:00Z", none⟩⟩ := by
  decide

/-- C6: the cache lookup returns a stored decision only if the entry is
present and its expiry instant is strictly in the future; an entry
observed to be expired (with caching enabled, so that the lookup
actually examines it) is removed, and the lookup reports absent. -/
theorem getCachedDecision_expiry_contract (ce : Bool) (c : Cache)
    (k : String) (now : Nat) :
    (∀ d, (getCachedDecision ce c k now).1 = some d →
      ∃ e, cacheLookup c k = some e ∧ now < e.expiry ∧ d = e.decision) ∧
    (∀ e, cacheLookup c k = some e → e.expiry ≤ now →
      (getCachedDecision ce c k now).1 = none ∧
        (ce = true → cacheLookup (getCachedDecision ce c k now).2 k = none)) := by
  constructor
  · intro d hd
    rw [getCachedDecision_fst] at hd
    unfold hitStatus validLookup at hd
    cases ce with
    | false => simp at hd
    | true =>
      simp only [if_true] at hd
      revert hd
      match hc : cacheLookup c k with
      | none => simp
      | some e =>
        by_cases he : now < e.expiry
        · simp only [he, if_true]
          intro hd
          injection hd with hd
          exact ⟨e, rfl, he, hd.symm⟩
        · simp [he]
  · intro e hlk hexp
    have hnone : hitStatus ce c k now = none := by
      unfold hitStatus validLookup
      cases ce with
      | false => simp
      | true =>
        simp only [if_true]
        rw [hlk]
        have : ¬ now < e.expiry := by omega
        simp [this]
    refine ⟨by rw [getCachedDecision_fst]; exact hnone, ?_⟩
    intro hce
    subst hce
    exact cacheLookup_after_miss c k now hnone

/-- Witness for C6 at a concrete expired entry. -/
theorem getCachedDecision_expiry_contract_witness :
    (getCachedDecision true [("k", ⟨⟨true, none⟩, 5⟩)] "k" 10).1 = none ∧
      cacheLookup (getCachedDecision true [("k", ⟨⟨true, none⟩, 5⟩)] "k" 10).2 "k" =
        none := by
  have h := (getCachedDecision_expiry_contract true
    [("k", ⟨⟨true, none⟩, 5⟩)] "k" 10).2 ⟨⟨true, none⟩, 5⟩ (by decide) (by decide)
  exact ⟨h.1, h.2 rfl⟩

/-- C7: the cache key ignores the request context: two policy inputs
that agree on subject identifier, action and resource — whatever their
claims and `env` blocks (timestamp, client IP) — produce equal keys. -/
theorem getCacheKey_independent_of_env (i₁ i₂ : OpaInput)
    (hu : i₁.uid = i₂.uid) (ha : i₁.action = i₂.action)
    (hr : i₁.resource = i₂.resource) :
    getCacheKey i₁ = getCacheKey i₂ := by
  unfold getCacheKey
  rw [hu, ha, hr]

/-- Witness for C7: same subject/action/resource, different timestamp,
IP and claims. -/
theorem getCacheKey_independent_of_env_witness :
    getCacheKey ⟨"u", [], "read", [("id", .str "1")], ⟨"t1", some "9.9.9.9"⟩⟩ =
      getCacheKey ⟨"u", [("role", .str "admin")], "read", [("id", .str "1")],
        ⟨"t2", none⟩⟩ :=
  getCacheKey_independent_of_env _ _ rfl rfl rfl

/-- C8: with no subject token, `authorize` returns the `no-token` deny
with allow=false and performs no network call (the service state is
untouched), and `authorizeBatch` returns one such deny per input item
with indices preserved, also without touching the service. -/
theorem authorize_no_token (verify : VerifyOracle) (ce : Bool) (ttl : Nat)
    (oracle : Nat → FetchOutcome) (now : Nat) (nowIso : String)
    (action : String) (resource : JRecord) (ctxIp : Option String)
    (requests : List BatchAuthRequest) (order : List Nat) (s : ServiceState) :
    authorize verify ce ttl oracle now nowIso none action resource ctxIp s =
        (⟨false, .msg "no-token", none, []⟩, s) ∧
      authorizeBatch verify ce ttl oracle now nowIso none requests order s =
        (denyAllRequests "no-token" requests 0, s) ∧
      (denyAllRequests "no-token" requests 0).length = requests.length ∧
      (∀ k, k < requests.length →
        (denyAllRequests "no-token" requests 0).get? k =
          some ⟨false, .msg "no-token", none, [], k⟩) := by
  refine ⟨rfl, rfl, denyAllRequests_length "no-token" requests 0, ?_⟩
  intro k hk
  rw [denyAllRequests_get? "no-token" requests 0 k hk, Nat.zero_add]

/-- Witness for C8 on a one-request batch. -/
theorem authorize_no_token_witness :
    (denyAllRequests "no-token" [⟨"read", [], none⟩] 0).get? 0 =
      some ⟨false, .msg "no-token", none, [], 0⟩ :=
  (authorize_no_token (fun _ => none) true 30000 (fun _ => .ok none) 0 "t"
    "read" [] none [⟨"read", [], none⟩] [] ⟨[], 0⟩).2.2.2 0 (by decide)

/-- C9: `authorizeAll` and `authorizeAny` are pure reductions over the
batch result of the same inputs: each returns the unchanged per-item
results of `authorizeBatch` (and its state), paired with the `every` /
`some` reduction of the allow flags, so "all allowed" holds iff every
decision allows and "any allowed" holds iff at least one does. -/
theorem authorizeAll_any_pure_reductions (verify : VerifyOracle) (ce : Bool)
    (ttl : Nat) (oracle : Nat → FetchOutcome) (now : Nat) (nowIso : String)
    (idToken : Option String) (requests : List BatchAuthRequest)
    (order : List Nat) (s : ServiceState) :
    (authorizeAll verify ce ttl oracle now nowIso idToken requests order s =
      (((authorizeBatch verify ce ttl oracle now nowIso idToken requests order s).1.all
          (fun r => r.allow),
        (authorizeBatch verify ce ttl oracle now nowIso idToken requests order s).1),
        (authorizeBatch verify ce ttl oracle now nowIso idToken requests order s).2)) ∧
    (authorizeAny verify ce ttl oracle now nowIso idToken requests order s =
      (((authorizeBatch verify ce ttl oracle now nowIso idToken requests order s).1.any
          (fun r => r.allow),
        (authorizeBatch verify ce ttl oracle now nowIso idToken requests order s).1),
        (authorizeBatch verify ce ttl oracle now nowIso idToken requests order s).2)) ∧
    ((authorizeBatch verify ce ttl oracle now nowIso idToken requests order s).1.all
        (fun r => r.allow) = true ↔
      ∀ r ∈ (authorizeBatch verify ce ttl oracle now nowIso idToken requests order s).1,
        r.allow = true) ∧
    ((authorizeBatch verify ce ttl oracle now nowIso idToken requests order s).1.any
        (fun r => r.allow) = true ↔
      ∃ r ∈ (authorizeBatch verify ce ttl oracle now nowIso idToken requests order s).1,
        r.allow = true) := by
  rcases hB : authorizeBatch verify ce ttl oracle now nowIso idToken requests order s
    with ⟨results, s₁⟩
  refine ⟨?_, ?_, ?_, ?_⟩
  · unfold authorizeAll
    rw [hB]
  · unfold authorizeAny
    rw [hB]
  · exact List.all_eq_true
  · simp

/-- Witness for C9 at a concrete no-token batch. -/
theorem authorizeAll_any_pure_reductions_witness :
    authorizeAll (fun _ => none) true 30000 (fun _ => .ok none) 0 "t" none
        [⟨"read", [], none⟩] [] ⟨[], 0⟩ =
      (((authorizeBatch (fun _ => none) true 30000 (fun _ => .ok none) 0 "t" none
            [⟨"read", [], none⟩] [] ⟨[], 0⟩).1.all (fun r => r.allow),
        (authorizeBatch (fun _ => none) true 30000 (fun _ => .ok none) 0 "t" none
            [⟨"read", [], none⟩] [] ⟨[], 0⟩).1),
        (authorizeBatch (fun _ => none) true 30000 (fun _ => .ok none) 0 "t" none
            [⟨"read", [], none⟩] [] ⟨[], 0⟩).2) :=
  (authorizeAll_any_pure_reductions (fun _ => none) true 30000 (fun _ => .ok none)
    0 "t" none [⟨"read", [], none⟩] [] ⟨[], 0⟩).1

/-- C3: a batch of N items of which M hit the cache issues exactly
N−M policy-endpoint calls; the result list has length N, is sorted by
original index with position i carrying index i, and equals the
per-item specification `specPass` (so the decision at position i is the
one computed for input item i); the output does not depend on the
completion order of the concurrent calls; an empty input returns an
empty result with no network call and an unchanged cache. -/
theorem queryBatch_order_and_call_count (ce : Bool) (ttl : Nat)
    (oracle : Nat → FetchOutcome) (now : Nat) (nowIso : String) (uid : String)
    (tc : JRecord) (items : List OpaBatchItem) (ip : Option String)
    (order₁ order₂ : List Nat) (s : ServiceState) :
    (queryBatch ce ttl oracle now nowIso uid tc items ip order₁ s).1.length =
        items.length ∧
      (queryBatch ce ttl oracle now nowIso uid tc items ip order₁ s).1.map
          (fun r => r.index) = List.range items.length ∧
      (queryBatch ce ttl oracle now nowIso uid tc items ip order₁ s).1 =
        specPass ce oracle now s.cache uid tc nowIso ip items 0 s.calls ∧
      (queryBatch ce ttl oracle now nowIso uid tc items ip order₁ s).2.calls =
        s.calls + (items.length -
          items.countP (fun it => !(isMiss ce s.cache now uid tc nowIso ip it))) ∧
      (items = [] →
        queryBatch ce ttl oracle now nowIso uid tc items ip order₁ s =
          ([], ⟨s.cache, s.calls⟩)) ∧
      (queryBatch ce ttl oracle now nowIso uid tc items ip order₁ s).1 =
        (queryBatch ce ttl oracle now nowIso uid tc items ip order₂ s).1 := by
  obtain ⟨hres, hcalls⟩ :=
    queryBatch_spec ce ttl oracle now nowIso uid tc items ip order₁ s
  obtain ⟨hres₂, _⟩ :=
    queryBatch_spec ce ttl oracle now nowIso uid tc items ip order₂ s
  have hcnt : items.countP (isMiss ce s.cache now uid tc nowIso ip) +
      items.countP (fun it => !(isMiss ce s.cache now uid tc nowIso ip it)) =
        items.length := by
    simpa using (List.length_eq_countP_add_countP
      (isMiss ce s.cache now uid tc nowIso ip) (l := items)).symm
  refine ⟨?_, ?_, hres, ?_, ?_, ?_⟩
  · rw [hres]
    exact specPass_length ce oracle now s.cache uid tc nowIso ip items 0 s.calls
  · rw [hres, specPass_index_map, ← List.range_eq_range']
  · rw [hcalls]
    omega
  · intro h
    subst h
    rfl
  · rw [hres, hres₂]

/-- Witness for C3: the empty batch returns no results and issues no
network call. -/
theorem queryBatch_order_and_call_count_witness :
    queryBatch true 30000 (fun _ => FetchOutcome.ok none) 0 "t" "u" [] []
        none [] ⟨[], 0⟩ = ([], ⟨[], 0⟩) :=
  (queryBatch_order_and_call_count true 30000 (fun _ => FetchOutcome.ok none)
    0 "t" "u" [] [] none [] [] ⟨[], 0⟩).2.2.2.2.1 rfl

/-- C4: each call within a batch is independently fault-isolated: the
result list always has length N; an uncached item whose own call fails
gets allow=false with the error message as reason; an uncached item
whose call succeeds gets exactly the decision its own call returned;
and a cached item keeps its cached decision, whatever happens to the
other items. -/
theorem queryBatch_fault_isolation (ce : Bool) (ttl : Nat)
    (oracle : Nat → FetchOutcome) (now : Nat) (nowIso : String) (uid : String)
    (tc : JRecord) (items : List OpaBatchItem) (ip : Option String)
    (order : List Nat) (s : ServiceState) :
    (queryBatch ce ttl oracle now nowIso uid tc items ip order s).1.length =
        items.length ∧
      (∀ k item, items.get? k = some item →
        hitStatus ce s.cache
            (getCacheKey (mkBatchInput uid tc nowIso ip item)) now = none →
        (∀ m, fetchToResult (oracle (s.calls +
              (items.take k).countP (isMiss ce s.cache now uid tc nowIso ip))) =
            .error m →
          (queryBatch ce ttl oracle now nowIso uid tc items ip order s).1.get? k =
            some ⟨k, false, ⟨false, some m⟩⟩) ∧
        (∀ r, oracle (s.calls +
              (items.take k).countP (isMiss ce s.cache now uid tc nowIso ip)) =
            .ok r →
          (queryBatch ce ttl oracle now nowIso uid tc items ip order s).1.get? k =
            some ⟨k, (r.getD noDecisionFallback).allow, r.getD noDecisionFallback⟩)) ∧
      (∀ k item d, items.get? k = some item →
        hitStatus ce s.cache
            (getCacheKey (mkBatchInput uid tc nowIso ip item)) now = some d →
        (queryBatch ce ttl oracle now nowIso uid tc items ip order s).1.get? k =
          some ⟨k, d.allow, d⟩) := by
  obtain ⟨hres, _⟩ :=
    queryBatch_spec ce ttl oracle now nowIso uid tc items ip order s
  refine ⟨?_, ?_, ?_⟩
  · rw [hres]
    exact specPass_length ce oracle now s.cache uid tc nowIso ip items 0 s.calls
  · intro k item hk hmiss
    have hg := specPass_get? ce oracle now s.cache uid tc nowIso ip items 0
      s.calls k item hk
    rw [hmiss] at hg
    constructor
    · intro m hm
      rw [hres, hg]
      unfold outcomeToBatchResult
      rw [hm]
      simp
    · intro r hr
      rw [hres, hg]
      unfold outcomeToBatchResult
      rw [hr]
      simp [fetchToResult]
  · intro k item d hk hhit
    have hg := specPass_get? ce oracle now s.cache uid tc nowIso ip items 0
      s.calls k item hk
    rw [hhit] at hg
    rw [hres, hg]
    simp

/-- Witness for C4: a one-item batch whose single call fails with a
network error yields the error-shaped deny at position 0. -/
theorem queryBatch_fault_isolation_witness :
    (queryBatch true 30000 (fun _ => FetchOutcome.netError "boom") 0 "t" "u"
        [] [⟨"a", []⟩] none [0] ⟨[], 0⟩).1.get? 0 =
      some ⟨0, false, ⟨false, some "boom"⟩⟩ :=
  ((queryBatch_fault_isolation true 30000 (fun _ => FetchOutcome.netError "boom")
      0 "t" "u" [] [⟨"a", []⟩] none [0] ⟨[], 0⟩).2.1 0 ⟨"a", []⟩ rfl rfl).1
    "boom" rfl

/-- C5: for every (subject, action, resource) tuple — that is, every
input envelope — if the first call misses the cache and the policy
endpoint answers successfully, then that call issues exactly one
network call, and a second call for the same input at any instant
before the entry's expiry returns the identical cached decision with
no further network call and no state change, so the two calls together
issue at most one network call. -/
theorem query_second_call_within_ttl_cached (ttl : Nat)
    (oracle : Nat → FetchOutcome) (now₁ now₂ : Nat) (input : OpaInput)
    (s : ServiceState) (r : Option OpaDecision)
    (hmiss : hitStatus true s.cache (getCacheKey input) now₁ = none)
    (hok : oracle s.calls = .ok r)
    (httl : now₂ < now₁ + ttl) :
    (query true ttl oracle now₁ input s).1 = .ok (r.getD noDecisionFallback) ∧
      (query true ttl oracle now₁ input s).2.calls = s.calls + 1 ∧
      query true ttl oracle now₂ input ((query true ttl oracle now₁ input s).2) =
        (.ok (r.getD noDecisionFallback),
          (query true ttl oracle now₁ input s).2) := by
  have h₁ := query_miss_ok true ttl oracle now₁ input s r hmiss hok
  rw [h₁]
  refine ⟨rfl, rfl, ?_⟩
  apply query_hit
  show hitStatus true
    (cacheDecision true ttl now₁
      (getCachedDecision true s.cache (getCacheKey input) now₁).2
      (getCacheKey input) (r.getD noDecisionFallback))
    (getCacheKey input) now₂ = some (r.getD noDecisionFallback)
  unfold cacheDecision hitStatus validLookup
  simp only [if_true]
  rw [cacheLookup_set]
  simp [httl]

/-- Witness for C5: a fresh state, a succeeding endpoint, and a second
call one millisecond later. -/
theorem query_second_call_within_ttl_cached_witness :
    (query true 30000 (fun _ => FetchOutcome.ok (some ⟨true, some "ok"⟩)) 0
        ⟨"u1", [], "read_post", [("id", .str "42")], ⟨"t", none⟩⟩ ⟨[], 0⟩).1 =
      .ok ⟨true, some "ok"⟩ :=
  (query_second_call_within_ttl_cached 30000
    (fun _ => FetchOutcome.ok (some ⟨true, some "ok"⟩)) 0 1
    ⟨"u1", [], "read_post", [("id", .str "42")], ⟨"t", none⟩⟩ ⟨[], 0⟩
    (some ⟨true, some "ok"⟩) rfl rfl (by decide)).1

/-- C10: failure-converted denies are never cached.  A failing single
query stores nothing (its key has no binding afterwards, so an
identical follow-up check issues another network call), and after a
batch every cache binding either predates the batch or holds a
decision parsed from a successful policy response together with the
TTL expiry. -/
theorem failure_denies_never_cached (ce : Bool) (ttl : Nat)
    (oracle : Nat → FetchOutcome) (now now₂ : Nat) (nowIso : String)
    (input : OpaInput) (uid : String) (tc : JRecord)
    (items : List OpaBatchItem) (ip : Option String) (order : List Nat)
    (s : ServiceState) (m : String) (k : String) (e : CacheEntry) :
    (hitStatus true s.cache (getCacheKey input) now = none →
      fetchToResult (oracle s.calls) = .error m →
      cacheLookup (query true ttl oracle now input s).2.cache
          (getCacheKey input) = none ∧
        (query true ttl oracle now₂ input
            ((query true ttl oracle now input s).2)).2.calls =
          (query true ttl oracle now input s).2.calls + 1) ∧
      (cacheLookup
          (queryBatch ce ttl oracle now nowIso uid tc items ip order s).2.cache
          k = some e →
        cacheLookup s.cache k = some e ∨
          ∃ n r, oracle n = .ok r ∧
            e = ⟨r.getD noDecisionFallback, now + ttl⟩) := by
  constructor
  · intro hmiss herr
    have h₁ := query_miss_err true ttl oracle now input s m hmiss herr
    rw [h₁]
    have hnone : cacheLookup
        (getCachedDecision true s.cache (getCacheKey input) now).2
        (getCacheKey input) = none :=
      cacheLookup_after_miss s.cache (getCacheKey input) now hmiss
    refine ⟨hnone, ?_⟩
    exact query_miss_calls true ttl oracle now₂ input _
      (hitStatus_of_lookup_none true _ (getCacheKey input) now₂ hnone)
  · exact queryBatch_cache_lookup ce ttl oracle now nowIso uid tc items ip
      order s k e

/-- Witness for C10: a failing call against an empty cache stores
nothing, and the retry issues a second network call. -/
theorem failure_denies_never_cached_witness :
    cacheLookup (query true 30000 (fun _ => FetchOutcome.netError "down") 0
        ⟨"u1", [], "read_post", [("id", .str "42")], ⟨"t", none⟩⟩
        ⟨[], 0⟩).2.cache
      (getCacheKey ⟨"u1", [], "read_post", [("id", .str "42")], ⟨"t", none⟩⟩) =
        none ∧
      (query true 30000 (fun _ => FetchOutcome.netError "down") 1
          ⟨"u1", [], "read_post", [("id", .str "42")], ⟨"t", none⟩⟩
          ((query true 30000 (fun _ => FetchOutcome.netError "down") 0
            ⟨"u1", [], "read_post", [("id", .str "42")], ⟨"t", none⟩⟩
            ⟨[], 0⟩).2)).2.calls =
        (query true 30000 (fun _ => FetchOutcome.netError "down") 0
          ⟨"u1", [], "read_post", [("id", .str "42")], ⟨"t", none⟩⟩
          ⟨[], 0⟩).2.calls + 1 :=
  (failure_denies_never_cached true 30000 (fun _ => FetchOutcome.netError "down")
    0 1 "t" ⟨"u1", [], "read_post", [("id", .str "42")], ⟨"t", none⟩⟩ "u" []
    [] none [] ⟨[], 0⟩ "down" "k" ⟨⟨false, none⟩, 0⟩).1 rfl rfl

/-- C2: the public entry points never throw — in the embedding they are
total functions into `AuthResult` values, whatever the collaborators
do — and every failure path resolves to a deny carrying the failure
reason: a token-verification failure yields allow=false with reason
`Invalid ID token` (single and batch, one deny per request); a
policy-endpoint failure (network error, non-success HTTP status, or
unparsable body, each thrown inside `query`) yields allow=false with
the error message as the decision payload; and a successful response
with no result field yields the fail-closed
`no decision returned` deny. -/
theorem authorize_fail_closed (verify : VerifyOracle) (ce : Bool) (ttl : Nat)
    (oracle : Nat → FetchOutcome) (now : Nat) (nowIso : String)
    (tok : String) (action : String) (resource : JRecord)
    (ctxIp : Option String) (requests : List BatchAuthRequest)
    (order : List Nat) (s : ServiceState) :
    (tok.isEmpty = false → verify tok = none →
      authorize verify ce ttl oracle now nowIso (some tok) action resource
          ctxIp s =
        (denyResult "Invalid ID token", s)) ∧
      (∀ uid claims m, tok.isEmpty = false → verify tok = some (uid, claims) →
        hitStatus ce s.cache
            (getCacheKey ⟨uid, claims, action, resource, ⟨nowIso, ctxIp⟩⟩)
            now = none →
        fetchToResult (oracle s.calls) = .error m →
        (authorize verify ce ttl oracle now nowIso (some tok) action resource
            ctxIp s).1 = denyResult m) ∧
      (∀ uid claims, tok.isEmpty = false → verify tok = some (uid, claims) →
        hitStatus ce s.cache
            (getCacheKey ⟨uid, claims, action, resource, ⟨nowIso, ctxIp⟩⟩)
            now = none →
        oracle s.calls = .ok none →
        (authorize verify ce ttl oracle now nowIso (some tok) action resource
            ctxIp s).1.allow = false ∧
          (authorize verify ce ttl oracle now nowIso (some tok) action resource
            ctxIp s).1.decision = .dec noDecisionFallback) ∧
      (tok.isEmpty = false → verify tok = none →
        authorizeBatch verify ce ttl oracle now nowIso (some tok) requests
            order s =
          (denyAllRequests "Invalid ID token" requests 0, s) ∧
        ∀ r ∈ denyAllRequests "Invalid ID token" requests 0,
          r.allow = false ∧ r.decision = .msg "Invalid ID token") := by
  refine ⟨?_, ?_, ?_, ?_⟩
  · intro hne hv
    simp [authorize, verifyToken, tokenFalsy, hne, hv]
  · intro uid claims m hne hv hmiss herr
    have hq := query_miss_err ce ttl oracle now
      ⟨uid, claims, action, resource, ⟨nowIso, ctxIp⟩⟩ s m hmiss herr
    simp [authorize, verifyToken, tokenFalsy, hne, hv, isAllowed, hq]
  · intro uid claims hne hv hmiss hok
    have hq := query_miss_ok ce ttl oracle now
      ⟨uid, claims, action, resource, ⟨nowIso, ctxIp⟩⟩ s none hmiss hok
    constructor <;>
      simp [authorize, verifyToken, tokenFalsy, hne, hv, isAllowed, hq,
        noDecisionFallback]
  · intro hne hv
    refine ⟨?_, denyAllRequests_mem "Invalid ID token" requests 0⟩
    simp [authorizeBatch, verifyToken, tokenFalsy, hne, hv]

/-- Witness for C2: an invalid token resolves to the verification-deny
with no state change. -/
theorem authorize_fail_closed_witness :
    authorize (fun _ => none) true 30000 (fun _ => FetchOutcome.ok none) 0 "t"
        (some "tk") "read" [] none ⟨[], 0⟩ =
      (denyResult "Invalid ID token", ⟨[], 0⟩) :=
  (authorize_fail_closed (fun _ => none) true 30000 (fun _ => FetchOutcome.ok none)
    0 "t" "tk" "read" [] none [] [] ⟨[], 0⟩).1 rfl rfl

